import Mathlib

/-!
# Aqt.StyleSheets `styleUtils.js` and Aqt.Testing `testUtils.js`

A shallow embedding of the two helper functions of the repository:

* `conditionalName` (`src/qml/Aqt/StyleSheets/styleUtils.js`), a pure function on
  arrays of `(boolean, string)` pairs;
* `withComponent` (`src/tests/Aqt/Testing/testUtils.js`), a scoped
  create / use / destroy helper written with `try … finally`.

JavaScript arrays of pairs are lists of `Bool × String`; JavaScript strings are
Lean strings.  The effects of `withComponent` are made explicit by passing a
world value that carries the chronological record of the calls the helper makes.
-/

namespace Aqt

/-! ## `styleUtils.js` -/

namespace StyleSheets

/-- The method `Array.prototype.join(sep)` on an array of strings: the empty array
gives the empty string; otherwise the result starts as the first element and, for
every further element, becomes `R + sep + element`. -/
def join (sep : String) : List String → String
  | [] => ""
  | first :: rest => rest.foldl (fun r next => (r ++ sep) ++ next) first

/-- The function `conditionalName(pairs)`:
`pairs.filter(item => item[0]).map(item => item[1]).join(' ')`. -/
def conditionalName (pairs : List (Bool × String)) : String :=
  join " " ((pairs.filter (fun item => item.1)).map (fun item => item.2))

/-- The labels of the pairs whose condition is true, in their original order
(the wording of the specification: select, then extract). -/
def selectedLabels (pairs : List (Bool × String)) : List String :=
  (pairs.filter (fun item => item.1 = true)).map Prod.snd

/-- A string starts with a space character. -/
def hasLeadingSpace (s : String) : Bool := s.toList.head? == some ' '

/-- A string ends with a space character. -/
def hasTrailingSpace (s : String) : Bool := s.toList.getLast? == some ' '

/-- Splitting a string at every single space character, as `s.split(' ')` does:
the pieces between consecutive spaces, empty pieces included. -/
def splitAtSpaces (s : String) : List String :=
  (s.toList.splitOn ' ').map String.mk

end StyleSheets

/-! ## `testUtils.js` -/

namespace Testing

/-- What the caller of `withComponent` can catch.  `value e` is a value thrown by the
callback or by a component's `destroy()`; `nullDestroy` is the `TypeError` that the
engine raises when `obj.destroy()` is evaluated while `obj` is `null`. -/
inductive Thrown (E : Type) where
  | value (e : E)
  | nullDestroy
  deriving DecidableEq, Repr

/-- The calls made by `withComponent`, in the order of the source text. -/
inductive Call (P A C : Type) where
  | createObject (parent : P) (args : A)
  | warn (message : String)
  | proc (obj : Option C)
  | destroy (obj : C)
  deriving DecidableEq, Repr

/-- The surroundings of a call: a state that the callback may read and change, and
the chronological record of the calls made by the helper. -/
structure World (S P A C : Type) where
  state : S
  calls : List (Call P A C)
  deriving DecidableEq, Repr

/-- Appending one call to the record. -/
def World.record {S P A C : Type} (w : World S P A C) (c : Call P A C) : World S P A C :=
  { w with calls := w.calls ++ [c] }

/-- The argument `componentClass`: its text when concatenated to a string, its
method `createObject(parent, args)`, whose result is a component or `null`
(`none`), and the method `destroy()` of its instances, which completes (`none`) or
throws a value (`some e`). -/
structure ComponentClass (P A C E : Type) where
  toString : String
  createObject : P → A → Option C
  destroy : C → Option E

/-- The argument `proc`: called with `obj`, it sees the world at that moment,
returns a result or throws a value, and leaves a new state behind. -/
abbrev Proc (S P A C E R : Type) : Type :=
  Option C → World S P A C → Except E R × S

/-- The function `withComponent(componentClass, parent, args, proc)`:

    var obj = componentClass.createObject(parent, args);
    if (obj == null) console.warn("Could not create object of class " + componentClass);
    try { return proc(obj); } finally { obj.destroy(); }

The `finally` block runs after `proc(obj)` has completed, whichever way; when it
completes normally the completion of the `try` block stands, and when it throws,
its error replaces that completion. -/
def withComponent {S P A C E R : Type} (componentClass : ComponentClass P A C E)
    (parent : P) (args : A) (proc : Proc S P A C E R) (w : World S P A C) :
    Except (Thrown E) R × World S P A C :=
  let obj := componentClass.createObject parent args
  let w1 := w.record (.createObject parent args)
  let w2 := match obj with
    | none => w1.record (.warn ("Could not create object of class " ++ componentClass.toString))
    | some _ => w1
  let w3 := w2.record (.proc obj)
  let completion := proc obj w3
  let w4 : World S P A C := { w3 with state := completion.2 }
  match obj with
  | none => (.error .nullDestroy, w4)
  | some c =>
    let w5 := w4.record (.destroy c)
    match componentClass.destroy c with
    | some e => (.error (.value e), w5)
    | none => (completion.1.mapError Thrown.value, w5)

/-- The arguments of the `createObject` calls in a record, in order. -/
def factoryCalls {P A C : Type} (l : List (Call P A C)) : List (P × A) :=
  l.filterMap (fun c => match c with
    | .createObject parent args => some (parent, args)
    | _ => none)

/-- The messages of the `console.warn` calls in a record, in order. -/
def warnings {P A C : Type} (l : List (Call P A C)) : List String :=
  l.filterMap (fun c => match c with
    | .warn message => some message
    | _ => none)

/-- The arguments of the calls of `proc` in a record, in order. -/
def procCalls {P A C : Type} (l : List (Call P A C)) : List (Option C) :=
  l.filterMap (fun c => match c with
    | .proc obj => some obj
    | _ => none)

/-- The components on which `destroy()` was called in a record, in order. -/
def destroyCalls {P A C : Type} (l : List (Call P A C)) : List C :=
  l.filterMap (fun c => match c with
    | .destroy obj => some obj
    | _ => none)

/-- A component class whose `createObject` always gives `null`. -/
def nullClass : ComponentClass Unit Unit Nat String :=
  { toString := "QQmlComponent(0x1)", createObject := fun _ _ => none, destroy := fun _ => none }

/-- A component class that creates component `n` from the arguments `n`, with a
`destroy()` that completes. -/
def itemClass : ComponentClass Unit Nat Nat String :=
  { toString := "QQmlComponent(0x2)", createObject := fun _ n => some n, destroy := fun _ => none }

/-- A callback that returns the number of `destroy()` calls recorded so far and
counts its own invocations in the state. -/
def probeProc {P A : Type} : Proc Nat P A Nat String Nat :=
  fun _ w => (.ok (destroyCalls w.calls).length, w.state + 1)

/-- A callback that throws `"boom"`. -/
def throwingProc {P A : Type} : Proc Nat P A Nat String Nat :=
  fun _ w => (.error "boom", w.state + 1)

end Testing

end Aqt

namespace Aqt.StyleSheets

/-! ### Auxiliary facts about `join` -/

theorem join_go (sep : String) (rest : List String) (acc : String) :
    String.intercalate.go acc sep rest = rest.foldl (fun r next => (r ++ sep) ++ next) acc := by
  induction rest generalizing acc with
  | nil => rfl
  | cons a as ih => simp [String.intercalate.go, ih]

theorem join_eq_intercalate (sep : String) (l : List String) :
    join sep l = String.intercalate sep l := by
  cases l with
  | nil => rfl
  | cons a as => simp [join, String.intercalate, join_go]

theorem foldl_data (sep : String) (rest : List String) (acc : String) :
    (rest.foldl (fun r next => (r ++ sep) ++ next) acc).data
      = acc.data ++ (rest.map (fun s => sep.data ++ s.data)).flatten := by
  induction rest generalizing acc with
  | nil => simp
  | cons a as ih => simp [ih, List.append_assoc]

theorem intercalate_cons_data (a : List Char) (as : List (List Char)) :
    [' '].intercalate (a :: as) = a ++ (as.map (fun s => ' ' :: s)).flatten := by
  induction as generalizing a with
  | nil => simp [List.intercalate]
  | cons b bs ih =>
    have h := ih b
    simp only [List.intercalate] at h ⊢
    simp [List.intersperse_cons_cons, h]

theorem join_data (l : List String) :
    (join " " l).data = [' '].intercalate (l.map String.data) := by
  cases l with
  | nil => rfl
  | cons a as =>
    rw [List.map_cons, intercalate_cons_data]
    simp only [join, foldl_data, List.map_map]
    rfl

theorem selectedLabels_eq (pairs : List (Bool × String)) :
    (pairs.filter (fun item => item.1)).map (fun item => item.2) = selectedLabels pairs := by
  simp [selectedLabels]

theorem conditionalName_eq_join (pairs : List (Bool × String)) :
    conditionalName pairs = join " " (selectedLabels pairs) := by
  rw [conditionalName, selectedLabels_eq]

theorem selectedLabels_of_all_true (pairs : List (Bool × String))
    (h : ∀ p ∈ pairs, p.1 = true) : selectedLabels pairs = pairs.map Prod.snd := by
  unfold selectedLabels
  congr 1
  exact List.filter_eq_self.2 (by simpa using h)

theorem data_ne_nil {s : String} (h : s ≠ "") : s.data ≠ [] := by
  intro hd
  apply h
  cases s
  simp_all

theorem join_head (a : String) (as : List String) (ha : a ≠ "") :
    (join " " (a :: as)).data.head? = a.data.head? := by
  simp only [join, foldl_data, List.head?_append]
  cases hd : a.data with
  | nil => exact absurd hd (data_ne_nil ha)
  | cons c cs => rfl

theorem join_getLast (l : List String) (z : String) (hl : l.getLast? = some z) (hz : z ≠ "") :
    (join " " l).data.getLast? = z.data.getLast? := by
  have hzd : z.data ≠ [] := data_ne_nil hz
  obtain ⟨c, cs, hcs⟩ : ∃ c cs, z.data = cs ++ [c] := by
    rcases List.eq_nil_or_concat z.data with h | ⟨cs, c, h⟩
    · exact absurd h hzd
    · exact ⟨c, cs, by simpa using h⟩
  cases l with
  | nil => simp at hl
  | cons a as =>
    rcases List.eq_nil_or_concat as with h | ⟨bs, b, h⟩
    · subst h
      simp at hl
      subst hl
      simp [join]
    · subst h
      have hb : b = z := by
        rw [List.concat_eq_append, ← List.cons_append, List.getLast?_append] at hl
        simpa using hl
      subst hb
      have hc : (' ' :: (cs ++ [c])).getLast? = some c := by
        rw [← List.cons_append, List.getLast?_append]
        rfl
      simp [join, List.foldl_append, hcs, hc]

/-! ### `conditionalName` -/

/-- C1: for every sequence of (boolean, string) pairs, `conditionalName` returns the
labels of exactly the pairs whose condition is true, in their original order, joined
with one space between consecutive labels, that is `String.intercalate " "` of the
selected labels; `[(true,"a"),(false,"b"),(true,"c")]` gives `"a c"`. -/
theorem conditionalName_eq_intercalate_selected :
    (∀ pairs : List (Bool × String),
      conditionalName pairs = String.intercalate " " (selectedLabels pairs)) ∧
    conditionalName [(true, "a"), (false, "b"), (true, "c")] = "a c" := by
  refine ⟨fun pairs => ?_, by decide⟩
  rw [conditionalName_eq_join, join_eq_intercalate]

/-- C6: a sequence in which no condition is true, the empty sequence included, gives
the empty string, whatever the labels are. -/
theorem conditionalName_none_true (pairs : List (Bool × String))
    (h : ∀ p ∈ pairs, p.1 = false) : conditionalName pairs = "" := by
  have hf : pairs.filter (fun item => item.1) = [] := by
    rw [List.filter_eq_nil_iff]
    intro p hp
    simp [h p hp]
  simp [conditionalName, hf, join]

/-- Witness for C6 at `[(false,"a"),(false,"b")]`. -/
theorem conditionalName_none_true_witness :
    (∀ p ∈ [(false, "a"), (false, "b")], p.1 = false) ∧
      conditionalName [(false, "a"), (false, "b")] = "" :=
  ⟨by decide, conditionalName_none_true [(false, "a"), (false, "b")] (by decide)⟩

/-- C7, counterexample: with all conditions true and unconstrained labels the result
can start with a space: `[(true,""),(true,"a")]` gives `" a"`. -/
theorem conditionalName_all_true_leading_space :
    ¬ (∀ pairs : List (Bool × String), (∀ p ∈ pairs, p.1 = true) →
        hasLeadingSpace (conditionalName pairs) = false ∧
        hasTrailingSpace (conditionalName pairs) = false) := by
  intro h
  have h1 := h [(true, ""), (true, "a")] (by decide)
  revert h1
  decide

/-- C7, amended: when all conditions are true, the first label is non-empty and does
not start with a space, and the last label is non-empty and does not end with a
space (the labels in between are unconstrained), the result has no leading and no
trailing space. -/
theorem conditionalName_all_true_no_outer_space (pairs : List (Bool × String))
    (hall : ∀ p ∈ pairs, p.1 = true)
    (hfirst : ∀ p ∈ pairs.head?, p.2 ≠ "" ∧ hasLeadingSpace p.2 = false)
    (hlast : ∀ p ∈ pairs.getLast?, p.2 ≠ "" ∧ hasTrailingSpace p.2 = false) :
    hasLeadingSpace (conditionalName pairs) = false ∧
      hasTrailingSpace (conditionalName pairs) = false := by
  rw [conditionalName_eq_join, selectedLabels_of_all_true pairs hall]
  cases pairs with
  | nil => exact ⟨rfl, rfl⟩
  | cons a as =>
    obtain ⟨ha, hsp⟩ := hfirst a rfl
    constructor
    · unfold hasLeadingSpace String.toList at hsp ⊢
      rw [List.map_cons, join_head _ _ ha]
      exact hsp
    · obtain ⟨z, hz⟩ : ∃ z, (a :: as).getLast? = some z :=
        ⟨(a :: as).getLast (by simp), List.getLast?_eq_getLast _ _⟩
      obtain ⟨hz1, hz2⟩ := hlast z hz
      have hm : ((a :: as).map Prod.snd).getLast? = some z.2 := by
        rw [List.getLast?_map, hz]
        rfl
      unfold hasTrailingSpace String.toList at hz2 ⊢
      rw [join_getLast _ _ hm hz1]
      exact hz2

/-- Witness for the amended C7: the middle label is empty and the outer labels
repeat. -/
theorem conditionalName_all_true_no_outer_space_witness :
    hasLeadingSpace (conditionalName [(true, "a"), (true, ""), (true, "a")]) = false ∧
      hasTrailingSpace (conditionalName [(true, "a"), (true, ""), (true, "a")]) = false :=
  conditionalName_all_true_no_outer_space [(true, "a"), (true, ""), (true, "a")]
    (by decide) (by decide) (by decide)

/-- C10: when at least one condition is true and every label of a true pair is
non-empty and has no space, splitting the result at single spaces gives back the
selected labels in order; hence two such sequences give the same string exactly when
they select the same list of labels. -/
theorem conditionalName_split_roundtrip (pairs pairs' : List (Bool × String))
    (hsome : ∃ p ∈ pairs, p.1 = true)
    (hlabel : ∀ p ∈ pairs, p.1 = true → p.2 ≠ "" ∧ ' ' ∉ p.2.toList)
    (hsome' : ∃ p ∈ pairs', p.1 = true)
    (hlabel' : ∀ p ∈ pairs', p.1 = true → p.2 ≠ "" ∧ ' ' ∉ p.2.toList) :
    splitAtSpaces (conditionalName pairs) = selectedLabels pairs ∧
    (conditionalName pairs = conditionalName pairs' ↔
      selectedLabels pairs = selectedLabels pairs') := by
  have key : ∀ q : List (Bool × String), (∃ p ∈ q, p.1 = true) →
      (∀ p ∈ q, p.1 = true → p.2 ≠ "" ∧ ' ' ∉ p.2.toList) →
      splitAtSpaces (conditionalName q) = selectedLabels q := by
    intro q hq hl
    have hne : (selectedLabels q).map String.data ≠ [] := by
      obtain ⟨p, hp, ht⟩ := hq
      have : p.2 ∈ selectedLabels q := by
        simp only [selectedLabels, List.mem_map, List.mem_filter]
        exact ⟨p, ⟨hp, by simpa using ht⟩, rfl⟩
      intro h
      rw [List.map_eq_nil_iff] at h
      rw [h] at this
      simp at this
    have hno : ∀ l ∈ (selectedLabels q).map String.data, ' ' ∉ l := by
      intro l hl'
      simp only [selectedLabels, List.mem_map, List.mem_filter] at hl'
      obtain ⟨s, ⟨p, ⟨hp, ht⟩, rfl⟩, rfl⟩ := hl'
      exact (hl p hp (by simpa using ht)).2
    unfold splitAtSpaces String.toList
    rw [conditionalName_eq_join, join_data, List.splitOn_intercalate _ _ hno hne]
    simp [List.map_map, Function.comp_def]
  refine ⟨key pairs hsome hlabel, ?_, ?_⟩
  · intro h
    rw [← key pairs hsome hlabel, ← key pairs' hsome' hlabel', h]
  · intro h
    rw [conditionalName_eq_join, conditionalName_eq_join, h]

/-- Witness for C10: a false pair whose label has a space is ignored. -/
theorem conditionalName_split_roundtrip_witness :
    splitAtSpaces (conditionalName [(true, "a"), (false, "b c"), (true, "c")])
        = selectedLabels [(true, "a"), (false, "b c"), (true, "c")] ∧
    (conditionalName [(true, "a"), (false, "b c"), (true, "c")]
        = conditionalName [(true, "a"), (true, "c")] ↔
      selectedLabels [(true, "a"), (false, "b c"), (true, "c")]
        = selectedLabels [(true, "a"), (true, "c")]) :=
  conditionalName_split_roundtrip [(true, "a"), (false, "b c"), (true, "c")]
    [(true, "a"), (true, "c")] (by decide) (by decide) (by decide) (by decide)

end Aqt.StyleSheets

namespace Aqt.Testing

variable {S P A C E R : Type}

/-! ### The two runs of `withComponent` -/

theorem withComponent_some (cc : ComponentClass P A C E) (parent : P) (args : A)
    (proc : Proc S P A C E R) (w : World S P A C) (c : C)
    (hc : cc.createObject parent args = some c) :
    withComponent cc parent args proc w =
      (match cc.destroy c with
        | some e => .error (.value e)
        | none => (proc (some c)
            ⟨w.state, w.calls ++ [.createObject parent args, .proc (some c)]⟩).1.mapError
              Thrown.value,
       ⟨(proc (some c) ⟨w.state, w.calls ++ [.createObject parent args, .proc (some c)]⟩).2,
        w.calls ++ [.createObject parent args, .proc (some c), .destroy c]⟩) := by
  simp only [withComponent, hc, World.record, List.append_assoc, List.singleton_append]
  cases cc.destroy c <;> rfl

theorem withComponent_none (cc : ComponentClass P A C E) (parent : P) (args : A)
    (proc : Proc S P A C E R) (w : World S P A C)
    (hc : cc.createObject parent args = none) :
    withComponent cc parent args proc w =
      (.error .nullDestroy,
       ⟨(proc none ⟨w.state, w.calls ++ [.createObject parent args,
            .warn ("Could not create object of class " ++ cc.toString), .proc none]⟩).2,
        w.calls ++ [.createObject parent args,
            .warn ("Could not create object of class " ++ cc.toString), .proc none]⟩) := by
  simp only [withComponent, hc, World.record, List.append_assoc, List.singleton_append,
    List.cons_append, List.nil_append]

/-! ### `withComponent` -/

/-- C2: when the factory gives a component and that component's `destroy()` does not
fail, the outcome of `withComponent` is the outcome of `proc` on that component: a
result `r` is returned as `r`, an error `e` is raised as that same `e`. -/
theorem withComponent_outcome_of_proc (cc : ComponentClass P A C E) (parent : P) (args : A)
    (proc : Proc S P A C E R) (w : World S P A C) (c : C)
    (hc : cc.createObject parent args = some c) (hd : cc.destroy c = none) :
    (∀ r, (proc (some c)
        ⟨w.state, w.calls ++ [.createObject parent args, .proc (some c)]⟩).1 = .ok r →
      (withComponent cc parent args proc w).1 = .ok r) ∧
    (∀ e, (proc (some c)
        ⟨w.state, w.calls ++ [.createObject parent args, .proc (some c)]⟩).1 = .error e →
      (withComponent cc parent args proc w).1 = .error (.value e)) := by
  rw [withComponent_some cc parent args proc w c hc]
  simp only [hd]
  constructor
  · intro r hr
    rw [hr]
    rfl
  · intro e he
    rw [he]
    rfl

/-- Witness for C2: a callback that returns `0` and a callback that throws
`"boom"`, on component `5`. -/
theorem withComponent_outcome_of_proc_witness :
    (withComponent itemClass () 5 probeProc ⟨0, []⟩).1 = .ok 0 ∧
    (withComponent itemClass () 5 throwingProc ⟨0, []⟩).1 = .error (.value "boom") :=
  ⟨(withComponent_outcome_of_proc itemClass () 5 probeProc ⟨0, []⟩ 5 rfl rfl).1 0 rfl,
   (withComponent_outcome_of_proc itemClass () 5 throwingProc ⟨0, []⟩ 5 rfl rfl).2 "boom" rfl⟩

/-- C3: when the factory gives a component `c`, then whatever `proc` does, no
`destroy()` has been called when `proc` starts, `proc` runs to its end in that world,
the one call made after it is `destroy()` on `c`, and the finished call has
destroyed `c` exactly once. -/
theorem withComponent_destroys_once (cc : ComponentClass P A C E) (parent : P) (args : A)
    (proc : Proc S P A C E R) (w : World S P A C) (c : C)
    (hc : cc.createObject parent args = some c) :
    destroyCalls (w.calls ++ [.createObject parent args, .proc (some c)])
      = destroyCalls w.calls ∧
    (withComponent cc parent args proc w).2.state =
      (proc (some c) ⟨w.state, w.calls ++ [.createObject parent args, .proc (some c)]⟩).2 ∧
    (withComponent cc parent args proc w).2.calls =
      (w.calls ++ [.createObject parent args, .proc (some c)]) ++ [.destroy c] ∧
    destroyCalls (withComponent cc parent args proc w).2.calls
      = destroyCalls w.calls ++ [c] := by
  rw [withComponent_some cc parent args proc w c hc]
  simp [destroyCalls, List.filterMap_append]

/-- Witness for C3: the probe sees no destroyed component (it returns `0`), and
component `5` is destroyed once afterwards, also when the callback throws. -/
theorem withComponent_destroys_once_witness :
    destroyCalls (withComponent itemClass () 5 probeProc ⟨0, []⟩).2.calls = [5] ∧
    destroyCalls (withComponent itemClass () 5 throwingProc ⟨0, []⟩).2.calls = [5] :=
  ⟨(withComponent_destroys_once itemClass () 5 probeProc ⟨0, []⟩ 5 rfl).2.2.2,
   (withComponent_destroys_once itemClass () 5 throwingProc ⟨0, []⟩ 5 rfl).2.2.2⟩

/-- C4, the code at a factory that gives `null`: the callback returns `0` normally,
and `withComponent` raises the `TypeError` of `obj.destroy()` on `null`, an error
that the callback did not raise. -/
theorem withComponent_null_discards_result :
    (probeProc none ⟨0, [.createObject () (),
        .warn "Could not create object of class QQmlComponent(0x1)", .proc none]⟩).1 = .ok 0 ∧
    (withComponent nullClass () () probeProc ⟨0, []⟩).1 = .error .nullDestroy := by
  constructor <;> rfl

/-- C5, the code at a factory that gives `null`: the callback is invoked with `null`
and no component is destroyed, but the release statement is executed all the same,
on `null`, so that the call ends with its `TypeError`, for every callback. -/
theorem withComponent_null_runs_release (proc : Proc S Unit Unit Nat String R)
    (w : World S Unit Unit Nat) :
    withComponent nullClass () () proc w =
      (.error .nullDestroy,
       ⟨(proc none ⟨w.state, w.calls ++ [.createObject () (),
            .warn "Could not create object of class QQmlComponent(0x1)", .proc none]⟩).2,
        w.calls ++ [.createObject () (),
            .warn "Could not create object of class QQmlComponent(0x1)", .proc none]⟩) :=
  withComponent_none nullClass () () proc w rfl

/-- C8: `withComponent` adds exactly one warning, naming `componentClass`, when the
factory gives `null` and none when it gives a component; every warning it adds
comes before the call of `proc`. -/
theorem withComponent_warning (cc : ComponentClass P A C E) (parent : P) (args : A)
    (proc : Proc S P A C E R) (w : World S P A C) :
    warnings (withComponent cc parent args proc w).2.calls =
      warnings w.calls ++ (match cc.createObject parent args with
        | none => ["Could not create object of class " ++ cc.toString]
        | some _ => []) ∧
    ∃ before after,
      (withComponent cc parent args proc w).2.calls =
        w.calls ++ before ++ Call.proc (cc.createObject parent args) :: after ∧
      procCalls before = [] ∧
      warnings before = (match cc.createObject parent args with
        | none => ["Could not create object of class " ++ cc.toString]
        | some _ => []) ∧
      warnings after = [] := by
  cases hc : cc.createObject parent args with
  | none =>
    rw [withComponent_none cc parent args proc w hc]
    refine ⟨by simp [warnings, List.filterMap_append], [.createObject parent args,
      .warn ("Could not create object of class " ++ cc.toString)], [], ?_, ?_, ?_, ?_⟩
      <;> simp [warnings, procCalls]
  | some c =>
    rw [withComponent_some cc parent args proc w c hc]
    refine ⟨by simp [warnings, List.filterMap_append], [.createObject parent args],
      [.destroy c], ?_, ?_, ?_, ?_⟩ <;> simp [warnings, procCalls]

/-- C9: every call of `withComponent` calls the factory exactly once, with the given
parent and args, and calls `proc` exactly once, after the factory call, with the
reference that the factory returned. -/
theorem withComponent_calls_once (cc : ComponentClass P A C E) (parent : P) (args : A)
    (proc : Proc S P A C E R) (w : World S P A C) :
    factoryCalls (withComponent cc parent args proc w).2.calls =
      factoryCalls w.calls ++ [(parent, args)] ∧
    procCalls (withComponent cc parent args proc w).2.calls =
      procCalls w.calls ++ [cc.createObject parent args] ∧
    ∃ mid after,
      (withComponent cc parent args proc w).2.calls =
        w.calls ++ Call.createObject parent args :: mid ++
          Call.proc (cc.createObject parent args) :: after ∧
      (withComponent cc parent args proc w).2.state =
        (proc (cc.createObject parent args) ⟨w.state, w.calls ++
          Call.createObject parent args :: mid ++
            [Call.proc (cc.createObject parent args)]⟩).2 := by
  cases hc : cc.createObject parent args with
  | none =>
    rw [withComponent_none cc parent args proc w hc]
    refine ⟨by simp [factoryCalls, List.filterMap_append],
      by simp [procCalls, List.filterMap_append],
      [.warn ("Could not create object of class " ++ cc.toString)], [], ?_, ?_⟩ <;> simp
  | some c =>
    rw [withComponent_some cc parent args proc w c hc]
    refine ⟨by simp [factoryCalls, List.filterMap_append],
      by simp [procCalls, List.filterMap_append], [], [.destroy c], ?_, ?_⟩ <;> simp

end Aqt.Testing
